import Mathlib

/-!
# Verification of the lazy expression algebra (`src/native/explorer/src/expressions.rs`)

The source file is a thin NIF layer: each `expr_*` function builds a node of the
engine's expression AST.  We embed the AST shallowly (`Expr` below), translate each
builder from the Rust source, and model the evaluation contract the external
execution engine must satisfy (spec §1, §6: evaluation itself is delegated; the
spec "only define[s] the contract an execution engine must satisfy").

Modelling choices, fixed once and used throughout:
* Column values are integers or null: a column is a `List (Option Int)`.
  Boolean masks are encoded as integers `0` / `1` (the claims under study never
  distinguish a boolean column from an integer one).
* `i64` division truncates toward zero in Rust, so `/` is `Int.tdiv`.
* Evaluation failure (missing column, non-broadcastable lengths) is `none` at the
  outer `Option` layer; a null value is `none` at the inner layer.
-/

namespace Explorer

/-- A column of values: each entry is an integer or null. -/
abbrev Col := List (Option Int)

/-- A dataframe, for the purposes of column resolution: named columns. -/
abbrev Env := List (String × Col)

/-- Aggregation kinds used by the builders under study. -/
inductive AggKind where
  | min | max | mean | sum
deriving DecidableEq, Repr

/-- Cast target types.  Modelled from the spec: the recognized scalar types of
§4.1 (integer, float, string, boolean, date, datetime); `cast_str_to_dtype`
lives in `src/native/explorer/src/series.rs`, which is not part of the sources
under verification. -/
inductive DType where
  | integer | float | string | boolean | date | datetime
deriving DecidableEq, Repr

/-- The expression AST built by the NIF layer: the subset of the engine's
`Expr` constructors that the builders in `expressions.rs` produce. -/
inductive Expr where
  | litInt (n : Int)
  | litNull
  | column (name : String)
  | castE (e : Expr) (dt : DType)
  | aliasE (e : Expr) (name : String)
  | eqE (l r : Expr)
  | addE (l r : Expr)
  | subE (l r : Expr)
  | mulE (l r : Expr)
  | divE (l r : Expr)
  | ternary (c t e : Expr)
  | isNotNullE (e : Expr)
  | agg (k : AggKind) (e : Expr)
  | fillNullE (e v : Expr)
  | backwardFillE (e : Expr)
  | forwardFillE (e : Expr)
  | sortE (e : Expr) (descending : Bool)
  | argSortE (e : Expr) (descending nullsLast : Bool)
  | rollingSum (e : Expr) (size : Nat) (weights : Option (List Int))
      (minPeriods : Nat) (center : Bool)
deriving DecidableEq, Repr

/-! ## Builders, translated from `expressions.rs` -/

/-- `expr_integer` (expressions.rs:15-19): wrap an integer literal. -/
def expr_integer (number : Int) : Expr := .litInt number

/-- `expr_column` (expressions.rs:61-65): a column reference leaf. -/
def expr_column (name : String) : Expr := .column name

/-- Modelled from the spec: `cast_str_to_dtype` is defined in
`src/native/explorer/src/series.rs`, which is not among the sources; per §4.1
and §4.9 the recognized target-type names are the scalar type names, and any
other string is unrecognized. -/
def cast_str_to_dtype (s : String) : Option DType :=
  if s = "integer" then some .integer
  else if s = "float" then some .float
  else if s = "string" then some .string
  else if s = "boolean" then some .boolean
  else if s = "date" then some .date
  else if s = "datetime" then some .datetime
  else none

/-- `expr_cast` (expressions.rs:53-59): `cast_str_to_dtype(to_dtype).expect("dtype is not valid")`
then wrap.  The `.expect` failure is an eagerly raised error at build time (the
NIF wrapper turns the panic into a raised exception); we model it as `Except.error`. -/
def expr_cast (data : Expr) (to_dtype : String) : Except String Expr :=
  match cast_str_to_dtype to_dtype with
  | some dt => .ok (.castE data dt)
  | none => .error "dtype is not valid"

/-- `expr_eq` (expressions.rs:67-73). -/
def expr_eq (left right : Expr) : Expr := .eqE left right

/-- `expr_is_not_nil` (expressions.rs:138-143). -/
def expr_is_not_nil (e : Expr) : Expr := .isNotNullE e

/-- `expr_peaks` (expressions.rs:174-184): `if min_or_max == "min" { expr.min() } else { expr.max() }`,
then `data.eq(type_expr)`.  Note the `else` branch catches every string other
than `"min"`. -/
def expr_peaks (data : Expr) (min_or_max : String) : Expr :=
  let type_expr := if min_or_max = "min" then Expr.agg .min data else Expr.agg .max data
  .eqE data type_expr

/-- `expr_fill_missing` (expressions.rs:186-199): a `match` on the strategy
string; the catch-all arm is `panic!("unknown strategy")`, an eagerly raised
error at build time, modelled as `Except.error`. -/
def expr_fill_missing (data : Expr) (strategy : String) : Except String Expr :=
  if strategy = "backward" then .ok (.backwardFillE data)
  else if strategy = "forward" then .ok (.forwardFillE data)
  else if strategy = "min" then .ok (.fillNullE data (.agg .min data))
  else if strategy = "max" then .ok (.fillNullE data (.agg .max data))
  else if strategy = "mean" then .ok (.fillNullE data (.agg .mean data))
  else .error "unknown strategy"

/-- `expr_fill_missing_with_value` (expressions.rs:201-206). -/
def expr_fill_missing_with_value (data value : Expr) : Expr := .fillNullE data value

/-- `expr_add` (expressions.rs:208-214). -/
def expr_add (left right : Expr) : Expr := .addE left right

/-- `expr_subtract` (expressions.rs:216-222). -/
def expr_subtract (left right : Expr) : Expr := .subE left right

/-- `expr_divide` (expressions.rs:224-230). -/
def expr_divide (left right : Expr) : Expr := .divE left right

/-- `expr_multiply` (expressions.rs:261-267). -/
def expr_multiply (left right : Expr) : Expr := .mulE left right

/-- `expr_quotient` (expressions.rs:232-243):
`left / when(right.eq(0)).then(Null).otherwise(right)`. -/
def expr_quotient (left right : Expr) : Expr :=
  .divE left (.ternary (.eqE right (.litInt 0)) .litNull right)

/-- `expr_remainder` (expressions.rs:245-259): recomputes the guarded quotient,
then `left - right * quotient`. -/
def expr_remainder (left right : Expr) : Expr :=
  let quotient := Expr.divE left (.ternary (.eqE right (.litInt 0)) .litNull right)
  .subE left (.mulE right quotient)

/-- `expr_alias` (expressions.rs:335-340). -/
def expr_alias (e : Expr) (name : String) : Expr := .aliasE e name

/-- `expr_coalesce` (expressions.rs:370-379):
`when(left.is_not_null()).then(left).otherwise(right)`. -/
def expr_coalesce (left right : Expr) : Expr :=
  .ternary (.isNotNullE left) left right

/-- Modelled from the spec: `rolling_opts` is defined in
`src/native/explorer/src/series.rs`, which is not among the sources; per §3, §4.6
and §7 it validates `window size ≥ 1`, `len(weights) == window_size` when weights
are given, `min_periods ≤ window_size` when given (default `window_size`), and a
violation is a ConstructionError. -/
def rolling_opts (window_size : Nat) (weights : Option (List Int))
    (min_periods : Option Nat) : Except String (Nat × Option (List Int) × Nat) :=
  if window_size < 1 then .error "window size must be at least 1"
  else
    match weights with
    | some ws =>
      if ws.length ≠ window_size then .error "weights length must match window size"
      else
        match min_periods with
        | some mp => if window_size < mp then .error "min_periods may not exceed window size"
                     else .ok (window_size, some ws, mp)
        | none => .ok (window_size, some ws, window_size)
    | none =>
      match min_periods with
      | some mp => if window_size < mp then .error "min_periods may not exceed window size"
                   else .ok (window_size, none, mp)
      | none => .ok (window_size, none, window_size)

/-- `expr_window_sum` (expressions.rs:382-401, instantiated at `rolling_sum`):
builds rolling options then wraps the operand in a rolling-sum node. -/
def expr_window_sum (data : Expr) (window_size : Nat) (weights : Option (List Int))
    (min_periods : Option Nat) (center : Bool) : Except String Expr :=
  match rolling_opts window_size weights min_periods with
  | .ok (size, ws, mp) => .ok (.rollingSum data size ws mp center)
  | .error e => .error e

/-- `expr_sort` (expressions.rs:429-434): `expr.sort(reverse)`. -/
def expr_sort (e : Expr) (reverse : Bool) : Expr := .sortE e reverse

/-- `expr_argsort` (expressions.rs:436-446): `SortOptions { descending: reverse,
nulls_last: false }`; note `nulls_last` is hard-coded to `false`. -/
def expr_argsort (e : Expr) (reverse : Bool) : Expr := .argSortE e reverse false

/-! ## Evaluation semantics

Modelled from the spec: the execution engine is an external collaborator (§6);
what follows is the contract the spec states it must satisfy — elementwise
operators with null propagation, length-1 broadcasting of scalars, aggregates
reducing to a single value, a conditional backing coalesce and the zero-guard,
sorting with nulls last, argsort honouring its own options, and rolling windows
with `min_periods` counting non-null values. -/

/-- Broadcast a column to length `n`: a column already of length `n` is kept,
a length-1 column (a scalar) is replicated, anything else is a length error. -/
def bcast (n : Nat) (c : Col) : Option Col :=
  if c.length = n then some c
  else if c.length = 1 then some (List.replicate n (c.getD 0 none))
  else none

/-- Elementwise binary operator with scalar broadcasting. -/
def evalBin (f : Option Int → Option Int → Option Int) (a b : Col) : Option Col :=
  match bcast (if a.length ≠ 1 then a.length else b.length) a,
        bcast (if a.length ≠ 1 then a.length else b.length) b with
  | some a₁, some b₁ => some (List.zipWith f a₁ b₁)
  | _, _ => none

/-- Three-way zip, for the conditional. -/
def zip3W (f : Option Int → Option Int → Option Int → Option Int) :
    Col → Col → Col → Col
  | a :: as₁, b :: bs, c :: cs => f a b c :: zip3W f as₁ bs cs
  | _, _, _ => []

/-- One cell of `when/then/otherwise`: a true (non-zero) mask value selects the
`then` branch; false or null selects `otherwise`. -/
def pick3 (c t e : Option Int) : Option Int :=
  match c with
  | some cv => if cv = 0 then e else t
  | none => e

/-- `when(c).then(t).otherwise(e)` with scalar broadcasting. -/
def evalTernary (c t e : Col) : Option Col :=
  match bcast (if c.length ≠ 1 then c.length
          else if t.length ≠ 1 then t.length else e.length) c,
        bcast (if c.length ≠ 1 then c.length
          else if t.length ≠ 1 then t.length else e.length) t,
        bcast (if c.length ≠ 1 then c.length
          else if t.length ≠ 1 then t.length else e.length) e with
  | some c₁, some t₁, some e₁ => some (zip3W pick3 c₁ t₁ e₁)
  | _, _, _ => none

/-- Null-propagating arithmetic cell. -/
def arithF (g : Int → Int → Int) (a b : Option Int) : Option Int :=
  match a, b with
  | some x, some y => some (g x y)
  | _, _ => none

/-- Division cell: null-propagating; `i64` division truncates toward zero;
division by a zero divisor yields null (numeric policy, never reached behind
the quotient guard). -/
def divF (a b : Option Int) : Option Int :=
  match a, b with
  | some x, some y => if y = 0 then none else some (Int.tdiv x y)
  | _, _ => none

/-- Equality cell: null-propagating comparison producing a `0`/`1` mask. -/
def eqF (a b : Option Int) : Option Int :=
  match a, b with
  | some x, some y => some (if x = y then 1 else 0)
  | _, _ => none

/-- `fill_null` cell: keep the value where present, else take the fallback. -/
def fillF (a b : Option Int) : Option Int := if a.isSome then a else b

/-- Reduce a column, ignoring nulls; an empty or all-null column reduces to null. -/
def reduceNonNull (g : Int → Int → Int) (xs : Col) : Option Int :=
  match xs.filterMap id with
  | [] => none
  | h :: t => some (t.foldl g h)

/-- One aggregate value.  The mean of an integer column is modelled with
truncating division (no claim under study evaluates a mean). -/
def aggF : AggKind → Col → Option Int
  | .min, xs => reduceNonNull min xs
  | .max, xs => reduceNonNull max xs
  | .sum, xs => some (xs.filterMap id).sum
  | .mean, xs =>
    match xs.filterMap id with
    | [] => none
    | vs => some (Int.tdiv vs.sum vs.length)

/-- Forward fill: substitute the nearest preceding non-null value. -/
def ffillAux : Option Int → Col → Col
  | _, [] => []
  | carry, o :: t =>
    let cur := if o.isSome then o else carry
    cur :: ffillAux cur t

/-- Sort key of position `i`: nulls ordered per `nullsLast`, then the value
(negated when descending), then the index as tie-break. -/
def sortKey (descending nullsLast : Bool) (xs : Col) (i : Nat) : Nat × Int × Nat :=
  match xs.getD i none with
  | none => ((if nullsLast then 1 else 0), 0, i)
  | some v => ((if nullsLast then 0 else 1), (if descending then -v else v), i)

/-- Lexicographic comparison of sort keys. -/
def keyLe (a b : Nat × Int × Nat) : Prop :=
  a.1 < b.1 ∨ (a.1 = b.1 ∧ (a.2.1 < b.2.1 ∨ (a.2.1 = b.2.1 ∧ a.2.2 ≤ b.2.2)))

instance : DecidableRel keyLe := fun a b => by
  unfold keyLe; infer_instance

/-- Index ordering induced by the sort keys of a column. -/
def idxRel (descending nullsLast : Bool) (xs : Col) (i j : Nat) : Prop :=
  keyLe (sortKey descending nullsLast xs i) (sortKey descending nullsLast xs j)

instance (d nl : Bool) (xs : Col) : DecidableRel (idxRel d nl xs) := fun i j => by
  unfold idxRel; infer_instance

/-- The index permutation sorting a column under the given options. -/
def argsortIdx (descending nullsLast : Bool) (xs : Col) : List Nat :=
  List.insertionSort (idxRel descending nullsLast xs) (List.range xs.length)

/-- One rolling-sum cell: the window of length `size` ending at `i` (shifted
forward by `size / 2` when centered), truncated at the column boundaries;
null when fewer than `minPeriods` non-null values fall in the window. -/
def rollingSumAt (size minPeriods : Nat) (weights : Option (List Int))
    (center : Bool) (xs : Col) (i : Nat) : Option Int :=
  let hi := if center then i + size / 2 else i
  let window := (xs.take (hi + 1)).drop (hi + 1 - size)
  let vals := window.filterMap id
  if vals.length < minPeriods then none
  else
    match weights with
    | none => some vals.sum
    | some ws => some (List.zipWith (fun o w => o.getD 0 * w) window ws).sum

/-- The rolling sum over a whole column. -/
def rollingSumCol (size : Nat) (weights : Option (List Int)) (minPeriods : Nat)
    (center : Bool) (xs : Col) : Col :=
  (List.range xs.length).map (rollingSumAt size minPeriods weights center xs)

/-- Column resolution: the engine's column resolver (§6), failing on an absent
name. -/
def lookupEnv (env : Env) (name : String) : Option Col :=
  match env with
  | [] => none
  | (n, c) :: rest => if n = name then some c else lookupEnv rest name

/-- Evaluation of an expression tree against a dataframe: the engine contract.
`none` at the outer layer is an EvaluationError (missing column, length
mismatch); a cast declares a coercion and is value-preserving on integer
columns. -/
def evalE (env : Env) : Expr → Option Col
  | .litInt n => some [some n]
  | .litNull => some [none]
  | .column name => lookupEnv env name
  | .castE e _ => evalE env e
  | .aliasE e _ => evalE env e
  | .eqE l r => do evalBin eqF (← evalE env l) (← evalE env r)
  | .addE l r => do evalBin (arithF (· + ·)) (← evalE env l) (← evalE env r)
  | .subE l r => do evalBin (arithF (· - ·)) (← evalE env l) (← evalE env r)
  | .mulE l r => do evalBin (arithF (· * ·)) (← evalE env l) (← evalE env r)
  | .divE l r => do evalBin divF (← evalE env l) (← evalE env r)
  | .ternary c t e => do evalTernary (← evalE env c) (← evalE env t) (← evalE env e)
  | .isNotNullE e =>
    (evalE env e).map (List.map fun o => some (if o.isSome then 1 else 0))
  | .agg k e => (evalE env e).map (fun xs => [aggF k xs])
  | .fillNullE e v => do evalBin fillF (← evalE env e) (← evalE env v)
  | .backwardFillE e => (evalE env e).map (fun xs => (ffillAux none xs.reverse).reverse)
  | .forwardFillE e => (evalE env e).map (ffillAux none)
  | .sortE e d =>
    (evalE env e).map (fun xs => (argsortIdx d true xs).map (fun i => xs.getD i none))
  | .argSortE e d nl =>
    (evalE env e).map (fun xs => (argsortIdx d nl xs).map (fun i => some (Int.ofNat i)))
  | .rollingSum e size w mp center =>
    (evalE env e).map (rollingSumCol size w mp center)

/-- The output label of a node.  Modelled from the spec (§4.9, §8): `alias`
renames the output label; a column is labeled by its name; other nodes keep
their operand's label. -/
def outputName : Expr → String
  | .litInt _ => "literal"
  | .litNull => "literal"
  | .column name => name
  | .castE e _ => outputName e
  | .aliasE _ name => name
  | .eqE l _ => outputName l
  | .addE l _ => outputName l
  | .subE l _ => outputName l
  | .mulE l _ => outputName l
  | .divE l _ => outputName l
  | .ternary c _ _ => outputName c
  | .isNotNullE e => outputName e
  | .agg _ e => outputName e
  | .fillNullE e _ => outputName e
  | .backwardFillE e => outputName e
  | .forwardFillE e => outputName e
  | .sortE e _ => outputName e
  | .argSortE e _ _ => outputName e
  | .rollingSum e _ _ _ _ => outputName e

/-- Apply an index permutation (as produced by `argsort`) to a column. -/
def applyPerm (vals : Col) (idxs : Col) : Col :=
  idxs.map fun o =>
    match o with
    | some i => vals.getD i.toNat none
    | none => none

/-! ## Generic list helpers -/

theorem getD_zipWith (f : Option Int → Option Int → Option Int) :
    ∀ (a b : Col) (i : Nat), i < a.length → i < b.length →
      (List.zipWith f a b).getD i none = f (a.getD i none) (b.getD i none)
  | _ :: _, _ :: _, 0, _, _ => rfl
  | _ :: as₁, _ :: bs, i + 1, ha, hb =>
    getD_zipWith f as₁ bs i (Nat.lt_of_succ_lt_succ ha) (Nat.lt_of_succ_lt_succ hb)

theorem getD_map_term {α β : Type} (f : α → β) (d : β) (d₁ : α) :
    ∀ (l : List α) (i : Nat), i < l.length → (l.map f).getD i d = f (l.getD i d₁)
  | _ :: _, 0, _ => rfl
  | _ :: t, i + 1, h => getD_map_term f d d₁ t i (Nat.lt_of_succ_lt_succ h)

theorem length_zip3W (f : Option Int → Option Int → Option Int → Option Int) :
    ∀ (a b c : Col), a.length = b.length → a.length = c.length →
      (zip3W f a b c).length = a.length
  | [], _, _, _, _ => by simp [zip3W]
  | _ :: _, [], _, hb, _ => by simp at hb
  | _ :: _, _ :: _, [], _, hc => by simp at hc
  | _ :: as₁, _ :: bs, _ :: cs, hb, hc => by
    simpa [zip3W] using length_zip3W f as₁ bs cs (by simpa using hb) (by simpa using hc)

theorem getD_zip3W (f : Option Int → Option Int → Option Int → Option Int) :
    ∀ (a b c : Col) (i : Nat), i < a.length → i < b.length → i < c.length →
      (zip3W f a b c).getD i none =
        f (a.getD i none) (b.getD i none) (c.getD i none)
  | _ :: _, _ :: _, _ :: _, 0, _, _, _ => rfl
  | _ :: as₁, _ :: bs, _ :: cs, i + 1, ha, hb, hc =>
    getD_zip3W f as₁ bs cs i (Nat.lt_of_succ_lt_succ ha) (Nat.lt_of_succ_lt_succ hb)
      (Nat.lt_of_succ_lt_succ hc)

theorem zipWith_replicate_right_eq_map (f : Option Int → Option Int → Option Int)
    (y : Option Int) :
    ∀ a : Col, List.zipWith f a (List.replicate a.length y) = a.map (fun x => f x y)
  | [] => rfl
  | x :: t => by
    simpa [List.replicate_succ] using zipWith_replicate_right_eq_map f y t

theorem zip3W_replicate_mid (f : Option Int → Option Int → Option Int → Option Int)
    (v : Option Int) :
    ∀ (c e : Col), c.length = e.length →
      zip3W f c (List.replicate c.length v) e =
        List.zipWith (fun a b => f a v b) c e
  | [], _, _ => rfl
  | _ :: _, [], h => by simp at h
  | x :: cs, y :: es, h => by
    simpa [zip3W, List.replicate_succ] using
      zip3W_replicate_mid f v cs es (by simpa using h)

theorem zipWith_map_left_self (f : Option Int → Option Int → Option Int)
    (g : Option Int → Option Int) :
    ∀ l : Col, List.zipWith f (l.map g) l = l.map (fun x => f (g x) x)
  | [] => rfl
  | x :: t => by simpa using zipWith_map_left_self f g t

theorem map_getD_range : ∀ xs : Col,
    (List.range xs.length).map (fun i => xs.getD i none) = xs
  | [] => rfl
  | x :: t => by
    rw [List.length_cons, List.range_succ_eq_map, List.map_cons,
      List.map_map]
    simp only [Function.comp_def, List.getD_cons_succ, List.getD_cons_zero]
    exact congrArg (List.cons x) (map_getD_range t)

theorem drop_take_succ_getD : ∀ (xs : Col) (i : Nat), i < xs.length →
    ((xs.take (i + 1)).drop i) = [xs.getD i none]
  | _ :: _, 0, _ => rfl
  | _ :: t, i + 1, h => drop_take_succ_getD t i (Nat.lt_of_succ_lt_succ h)

/-! ## Broadcast normal forms -/

theorem bcast_of_length_eq {n : Nat} {c : Col} (h : c.length = n) : bcast n c = some c := by
  simp [bcast, h]

theorem bcast_singleton (n : Nat) (v : Option Int) :
    bcast n [v] = some (List.replicate n v) := by
  rcases eq_or_ne n 1 with rfl | h
  · rfl
  · simp [bcast, Ne.symm h]

theorem evalBin_eq_zipWith (f : Option Int → Option Int → Option Int) {a b : Col}
    (h : a.length = b.length) : evalBin f a b = some (List.zipWith f a b) := by
  have hn : (if a.length ≠ 1 then a.length else b.length) = a.length := by
    rcases eq_or_ne a.length 1 with h1 | h1 <;> simp [h1, ← h]
  unfold evalBin
  rw [hn, bcast_of_length_eq rfl, bcast_of_length_eq h.symm]

theorem evalBin_lit_right (f : Option Int → Option Int → Option Int) (a : Col)
    (y : Option Int) : evalBin f a [y] = some (a.map (fun x => f x y)) := by
  rcases eq_or_ne a.length 1 with h1 | h1
  · obtain ⟨x, rfl⟩ := List.length_eq_one.mp h1
    rw [evalBin_eq_zipWith f (show ([x] : Col).length = ([y] : Col).length from rfl)]
    rfl
  · have hn : (if a.length ≠ 1 then a.length else ([y] : Col).length) = a.length :=
      if_pos h1
    unfold evalBin
    rw [hn, bcast_of_length_eq rfl, bcast_singleton]
    exact congrArg some (zipWith_replicate_right_eq_map f y a)

theorem evalTernary_lit_then {c e : Col} (v : Option Int) (h : c.length = e.length) :
    evalTernary c [v] e = some (List.zipWith (fun ci ei => pick3 ci v ei) c e) := by
  have hn : (if c.length ≠ 1 then c.length
      else if ([v] : Col).length ≠ 1 then ([v] : Col).length else e.length) = c.length := by
    rcases eq_or_ne c.length 1 with h1 | h1 <;> simp [h1, ← h]
  unfold evalTernary
  rw [hn, bcast_of_length_eq rfl, bcast_singleton, bcast_of_length_eq h.symm]
  exact congrArg some (zip3W_replicate_mid pick3 v c e h)

theorem evalTernary_eq_zip3W {c t e : Col} (h1 : c.length = t.length)
    (h2 : c.length = e.length) : evalTernary c t e = some (zip3W pick3 c t e) := by
  have hn : (if c.length ≠ 1 then c.length
      else if t.length ≠ 1 then t.length else e.length) = c.length := by
    rcases eq_or_ne c.length 1 with hc | hc <;> simp [hc, ← h1, ← h2]
  unfold evalTernary
  rw [hn, bcast_of_length_eq rfl, bcast_of_length_eq h1.symm, bcast_of_length_eq h2.symm]

theorem zipWith_congr_fun {f g : Option Int → Option Int → Option Int}
    (h : ∀ x y, f x y = g x y) :
    ∀ (a b : Col), List.zipWith f a b = List.zipWith g a b
  | [], _ => by simp
  | _ :: _, [] => by simp
  | x :: as₁, y :: bs => by simp [h, zipWith_congr_fun h as₁ bs]

theorem zip3W_map_first (f : Option Int → Option Int → Option Int → Option Int)
    (g : Option Int → Option Int) :
    ∀ (a b : Col), a.length = b.length →
      zip3W f (a.map g) a b = List.zipWith (fun x y => f (g x) x y) a b
  | [], _, _ => rfl
  | _ :: _, [], h => by simp at h
  | x :: as₁, y :: bs, h => by
    simpa [zip3W] using zip3W_map_first f g as₁ bs (by simpa using h)

/-! ## Properties of the index ordering -/

theorem sortKey_snd_snd (d nl : Bool) (xs : Col) (i : Nat) :
    (sortKey d nl xs i).2.2 = i := by
  unfold sortKey
  cases xs.getD i none <;> rfl

theorem idxRel_total (d nl : Bool) (xs : Col) (i j : Nat) :
    idxRel d nl xs i j ∨ idxRel d nl xs j i := by
  unfold idxRel keyLe
  omega

theorem idxRel_trans (d nl : Bool) (xs : Col) {i j k : Nat}
    (h1 : idxRel d nl xs i j) (h2 : idxRel d nl xs j k) : idxRel d nl xs i k := by
  unfold idxRel keyLe at *
  omega

theorem idxRel_antisymm (d nl : Bool) (xs : Col) {i j : Nat}
    (h1 : idxRel d nl xs i j) (h2 : idxRel d nl xs j i) : i = j := by
  have hi := sortKey_snd_snd d nl xs i
  have hj := sortKey_snd_snd d nl xs j
  unfold idxRel keyLe at h1 h2
  omega

theorem argsortIdx_perm_range (d nl : Bool) (xs : Col) :
    List.Perm (argsortIdx d nl xs) (List.range xs.length) :=
  List.perm_insertionSort _ _

theorem argsortIdx_sorted (d nl : Bool) (xs : Col) :
    List.Pairwise (idxRel d nl xs) (argsortIdx d nl xs) := by
  haveI : IsTotal Nat (idxRel d nl xs) := ⟨idxRel_total d nl xs⟩
  haveI : IsTrans Nat (idxRel d nl xs) := ⟨fun _ _ _ => idxRel_trans d nl xs⟩
  exact List.sorted_insertionSort _ _

theorem orderedInsert_congr {α : Type} {r s : α → α → Prop}
    [DecidableRel r] [DecidableRel s] (a : α) :
    ∀ l : List α, (∀ b ∈ l, (r a b ↔ s a b)) →
      List.orderedInsert r a l = List.orderedInsert s a l
  | [], _ => rfl
  | b :: l, h => by
    simp only [List.orderedInsert]
    by_cases hr : r a b
    · rw [if_pos hr, if_pos ((h b (by simp)).mp hr)]
    · rw [if_neg hr, if_neg (fun hs => hr ((h b (by simp)).mpr hs))]
      exact congrArg (List.cons b)
        (orderedInsert_congr a l (fun c hc => h c (by simp [hc])))

theorem insertionSort_congr {α : Type} {r s : α → α → Prop}
    [DecidableRel r] [DecidableRel s] :
    ∀ l : List α, (∀ a ∈ l, ∀ b ∈ l, (r a b ↔ s a b)) →
      List.insertionSort r l = List.insertionSort s l
  | [], _ => rfl
  | a :: l, h => by
    have ih := insertionSort_congr l (fun x hx y hy => h x (by simp [hx]) y (by simp [hy]))
    show List.orderedInsert r a (List.insertionSort r l)
        = List.orderedInsert s a (List.insertionSort s l)
    rw [← ih]
    exact orderedInsert_congr a (List.insertionSort r l)
      (fun b hb => h a (by simp) b (by simp [(List.mem_insertionSort r).mp hb]))

/-! ## The size-one rolling sum -/

theorem rollingSumAt_one (xs : Col) (i : Nat) (hi : i < xs.length) :
    rollingSumAt 1 1 none false xs i = xs.getD i none := by
  unfold rollingSumAt
  simp only [if_neg Bool.false_ne_true, Nat.add_sub_cancel]
  rw [drop_take_succ_getD xs i hi]
  cases xs.getD i none <;> simp [List.filterMap]

theorem rollingSumCol_one (xs : Col) : rollingSumCol 1 none 1 false xs = xs := by
  unfold rollingSumCol
  rw [List.map_congr_left (fun i hi =>
    rollingSumAt_one xs i (List.mem_range.mp hi))]
  exact map_getD_range xs

theorem sortKey_none_eq {d nl : Bool} {xs : Col} {i : Nat}
    (h : xs.getD i none = none) :
    sortKey d nl xs i = ((if nl then 1 else 0), 0, i) := by
  unfold sortKey; rw [h]

theorem sortKey_some_eq {d nl : Bool} {xs : Col} {i : Nat} {v : Int}
    (h : xs.getD i none = some v) :
    sortKey d nl xs i = ((if nl then 0 else 1), (if d then -v else v), i) := by
  unfold sortKey; rw [h]

/-- The order a sorted column must satisfy: any null follows every non-null
element, and non-null values are ordered by the requested direction. -/
def nullsLastLe (d : Bool) : Option Int → Option Int → Prop
  | _, none => True
  | none, some _ => False
  | some x, some y => if d then y ≤ x else x ≤ y

/-! ## Claim theorems -/

/-- C8: on the column `x = [1,2,3,4]`, `quotient(x, 2)` evaluates to `[0,1,1,2]`
and `remainder(x, 2)` to `[1,0,1,0]`; with `y = [0,2,0,2]`, `quotient(x, y)`
evaluates to `[null,1,null,2]` and `remainder(x, y)` to `[null,0,null,0]`. -/
theorem quotient_remainder_concrete_example :
    evalE [("x", [some 1, some 2, some 3, some 4]), ("y", [some 0, some 2, some 0, some 2])]
        (expr_quotient (expr_column "x") (expr_integer 2))
      = some [some 0, some 1, some 1, some 2] ∧
    evalE [("x", [some 1, some 2, some 3, some 4]), ("y", [some 0, some 2, some 0, some 2])]
        (expr_remainder (expr_column "x") (expr_integer 2))
      = some [some 1, some 0, some 1, some 0] ∧
    evalE [("x", [some 1, some 2, some 3, some 4]), ("y", [some 0, some 2, some 0, some 2])]
        (expr_quotient (expr_column "x") (expr_column "y"))
      = some [none, some 1, none, some 2] ∧
    evalE [("x", [some 1, some 2, some 3, some 4]), ("y", [some 0, some 2, some 0, some 2])]
        (expr_remainder (expr_column "x") (expr_column "y"))
      = some [none, some 0, none, some 0] := by
  decide

/-- C10: for every kind string other than `"min"` — including strings that are
neither `"min"` nor `"max"` — `expr_peaks` builds, without any error, the same
node as for `"max"`: the equality mask of the operand against its global max
reduction. -/
theorem peaks_unknown_tag_defaults_to_max (e : Expr) (s : String) (h : s ≠ "min") :
    expr_peaks e s = expr_peaks e "max" ∧
    expr_peaks e "max" = Expr.eqE e (Expr.agg AggKind.max e) := by
  refine ⟨?_, rfl⟩
  simp [expr_peaks, h]

theorem peaks_unknown_tag_defaults_to_max_witness :
    expr_peaks (Expr.column "x") "median" = expr_peaks (Expr.column "x") "max" ∧
    expr_peaks (Expr.column "x") "max"
      = Expr.eqE (Expr.column "x") (Expr.agg AggKind.max (Expr.column "x")) :=
  peaks_unknown_tag_defaults_to_max (Expr.column "x") "median" (by decide)

/-- C3: `expr_fill_missing` with any strategy string outside
`{"backward", "forward", "min", "max", "mean"}` fails eagerly at node-build
time with an error and never builds a node. -/
theorem fill_missing_unknown_strategy_errors (e : Expr) (s : String)
    (h : s ≠ "backward" ∧ s ≠ "forward" ∧ s ≠ "min" ∧ s ≠ "max" ∧ s ≠ "mean") :
    expr_fill_missing e s = Except.error "unknown strategy" := by
  obtain ⟨h1, h2, h3, h4, h5⟩ := h
  simp [expr_fill_missing, h1, h2, h3, h4, h5]

theorem fill_missing_unknown_strategy_errors_witness :
    expr_fill_missing (Expr.column "x") "bogus" = Except.error "unknown strategy" :=
  fill_missing_unknown_strategy_errors (Expr.column "x") "bogus" (by decide)

/-- C4: `expr_cast` with a target-type string that is not a recognized type
name fails immediately at construction time with an error, before any
evaluation is attempted. -/
theorem cast_unknown_dtype_errors (e : Expr) (t : String)
    (h : t ≠ "integer" ∧ t ≠ "float" ∧ t ≠ "string" ∧ t ≠ "boolean" ∧
         t ≠ "date" ∧ t ≠ "datetime") :
    expr_cast e t = Except.error "dtype is not valid" := by
  obtain ⟨h1, h2, h3, h4, h5, h6⟩ := h
  simp [expr_cast, cast_str_to_dtype, h1, h2, h3, h4, h5, h6]

theorem cast_unknown_dtype_errors_witness :
    expr_cast (Expr.column "x") "not_a_type" = Except.error "dtype is not valid" :=
  cast_unknown_dtype_errors (Expr.column "x") "not_a_type" (by decide)

/-- C9: evaluating `alias(e, n)` yields exactly the same values as evaluating
`e`, with only the output label changed to `n`. -/
theorem alias_preserves_values_renames_label (env : Env) (e : Expr) (n : String) :
    evalE env (expr_alias e n) = evalE env e ∧ outputName (expr_alias e n) = n :=
  ⟨rfl, rfl⟩

/-- C7: the size-1 rolling sum (no weights, default min_periods, not centered)
is the identity: the built node evaluates to exactly the operand's values. -/
theorem window_sum_size_one_identity (env : Env) (e : Expr) :
    Except.map (evalE env) (expr_window_sum e 1 none none false)
      = Except.ok (evalE env e) := by
  have h1 : expr_window_sum e 1 none none false
      = Except.ok (Expr.rollingSum e 1 none 1 false) := rfl
  rw [h1]
  show Except.ok (evalE env (Expr.rollingSum e 1 none 1 false)) = _
  congr 1
  show (evalE env e).map (rollingSumCol 1 none 1 false) = evalE env e
  cases hx : evalE env e with
  | none => rfl
  | some xs => exact congrArg some (rollingSumCol_one xs)

/-- C2: evaluating `coalesce(a, b)` yields, at each position, the value of `a`
wherever `a` is non-null, and the value of `b` otherwise. -/
theorem coalesce_pointwise (env : Env) (a b : Expr) (va vb : Col)
    (ha : evalE env a = some va) (hb : evalE env b = some vb)
    (hlen : va.length = vb.length) :
    evalE env (expr_coalesce a b)
      = some (List.zipWith (fun x y => if x.isSome then x else y) va vb) := by
  have hstep : evalE env (expr_coalesce a b)
      = evalTernary (va.map fun o => some (if o.isSome then 1 else 0)) va vb := by
    simp [expr_coalesce, evalE, ha, hb]
  rw [hstep, evalTernary_eq_zip3W (by simp) (by simpa using hlen),
    zip3W_map_first pick3 _ va vb hlen]
  exact congrArg some (zipWith_congr_fun (fun x y => by cases x <;> rfl) va vb)

/-- C1 counterexample: the quotient is also null at a position where the
divisor is neither null nor zero — it suffices that the dividend is null
there — so "null at exactly the positions where `r` evaluates to 0" fails. -/
theorem quotient_null_beyond_zero_divisor :
    evalE [("a", [none]), ("b", [some 1])]
        (expr_quotient (expr_column "a") (expr_column "b")) = some [none] ∧
    evalE [("a", [none]), ("b", [some 1])] (expr_column "b") = some [some 1] ∧
    ¬ ((some 1 : Option Int) = none ∨ (some 1 : Option Int) = some 0) := by
  decide

/-- C1 (amended): `quotient(l, r)` evaluates to null at exactly the positions
where `r` is 0, `r` is null, or `l` is null; `remainder(l, r)` is null at
exactly the same positions as the quotient; and at every position where the
operands and the quotient are non-null, the remainder equals `l - r * quotient`. -/
theorem quotient_remainder_null_positions (env : Env) (l r : Expr)
    (la ra q rem : Col)
    (hl : evalE env l = some la) (hr : evalE env r = some ra)
    (hlen : la.length = ra.length)
    (hq : evalE env (expr_quotient l r) = some q)
    (hrem : evalE env (expr_remainder l r) = some rem) :
    ∀ i, i < la.length →
      ((q.getD i none = none) ↔
        (ra.getD i none = none ∨ ra.getD i none = some 0 ∨ la.getD i none = none)) ∧
      ((rem.getD i none = none) ↔ (q.getD i none = none)) ∧
      (∀ x y z, la.getD i none = some x → ra.getD i none = some y →
        q.getD i none = some z → rem.getD i none = some (x - y * z)) := by
  have hcond : evalE env (Expr.eqE r (Expr.litInt 0))
      = some (ra.map fun v => eqF v (some 0)) := by
    show (evalE env r).bind (fun b => evalBin eqF b [some 0]) = _
    rw [hr]
    exact evalBin_lit_right eqF ra (some 0)
  have hguard : evalE env (Expr.ternary (Expr.eqE r (Expr.litInt 0)) Expr.litNull r)
      = some (ra.map fun v => pick3 (eqF v (some 0)) none v) := by
    show (evalE env (Expr.eqE r (Expr.litInt 0))).bind
        (fun c => (evalE env r).bind (fun e => evalTernary c [none] e)) = _
    rw [hcond]
    show (evalE env r).bind
        (fun e => evalTernary (ra.map fun v => eqF v (some 0)) [none] e) = _
    rw [hr]
    show evalTernary (ra.map fun v => eqF v (some 0)) [none] ra = _
    rw [evalTernary_lit_then none (by simp),
      zipWith_map_left_self (fun ci ei => pick3 ci none ei) (fun v => eqF v (some 0)) ra]
  have hq2 : q = List.zipWith divF la
      (ra.map fun v => pick3 (eqF v (some 0)) none v) := by
    have hstep : evalE env (expr_quotient l r)
        = some (List.zipWith divF la
            (ra.map fun v => pick3 (eqF v (some 0)) none v)) := by
      show (evalE env l).bind (fun a =>
          (evalE env (Expr.ternary (Expr.eqE r (Expr.litInt 0)) Expr.litNull r)).bind
            (fun b => evalBin divF a b)) = _
      rw [hl]
      show (evalE env (Expr.ternary (Expr.eqE r (Expr.litInt 0)) Expr.litNull r)).bind
          (fun b => evalBin divF la b) = _
      rw [hguard]
      show evalBin divF la (ra.map fun v => pick3 (eqF v (some 0)) none v) = _
      exact evalBin_eq_zipWith divF (by simpa using hlen)
    rw [hq] at hstep
    exact Option.some_injective _ hstep
  have hqlen : q.length = la.length := by
    rw [hq2]; simp [hlen]
  have hrem2 : rem = List.zipWith (arithF (· - ·)) la
      (List.zipWith (arithF (· * ·)) ra q) := by
    have hqeval : evalE env
        (Expr.divE l (Expr.ternary (Expr.eqE r (Expr.litInt 0)) Expr.litNull r))
        = some q := hq
    have hmul : evalE env (Expr.mulE r
        (Expr.divE l (Expr.ternary (Expr.eqE r (Expr.litInt 0)) Expr.litNull r)))
        = some (List.zipWith (arithF (· * ·)) ra q) := by
      show (evalE env r).bind (fun a =>
          (evalE env (Expr.divE l
            (Expr.ternary (Expr.eqE r (Expr.litInt 0)) Expr.litNull r))).bind
            (fun b => evalBin (arithF (· * ·)) a b)) = _
      rw [hr]
      show (evalE env (Expr.divE l
          (Expr.ternary (Expr.eqE r (Expr.litInt 0)) Expr.litNull r))).bind
          (fun b => evalBin (arithF (· * ·)) ra b) = _
      rw [hqeval]
      show evalBin (arithF (· * ·)) ra q = _
      exact evalBin_eq_zipWith _ (by rw [hqlen, hlen])
    have hstep : evalE env (expr_remainder l r)
        = some (List.zipWith (arithF (· - ·)) la
            (List.zipWith (arithF (· * ·)) ra q)) := by
      show (evalE env l).bind (fun a =>
          (evalE env (Expr.mulE r (Expr.divE l
            (Expr.ternary (Expr.eqE r (Expr.litInt 0)) Expr.litNull r)))).bind
            (fun b => evalBin (arithF (· - ·)) a b)) = _
      rw [hl]
      show (evalE env (Expr.mulE r (Expr.divE l
          (Expr.ternary (Expr.eqE r (Expr.litInt 0)) Expr.litNull r)))).bind
          (fun b => evalBin (arithF (· - ·)) la b) = _
      rw [hmul]
      show evalBin (arithF (· - ·)) la (List.zipWith (arithF (· * ·)) ra q) = _
      exact evalBin_eq_zipWith _
        (by rw [List.length_zipWith, hqlen, hlen, Nat.min_self])
    rw [hrem] at hstep
    exact Option.some_injective _ hstep
  intro i hi
  have hi₂ : i < ra.length := hlen ▸ hi
  have hiq : i < q.length := hqlen ▸ hi
  have hqi : q.getD i none
      = divF (la.getD i none) (pick3 (eqF (ra.getD i none) (some 0)) none (ra.getD i none)) := by
    rw [hq2, getD_zipWith _ _ _ i hi (by simpa using hi₂),
      getD_map_term _ none none ra i hi₂]
  have hremi : rem.getD i none
      = arithF (· - ·) (la.getD i none)
          (arithF (· * ·) (ra.getD i none) (q.getD i none)) := by
    rw [hrem2, getD_zipWith _ _ _ i hi (by simp [hi₂, hiq]),
      getD_zipWith _ _ _ i hi₂ hiq]
  rw [hremi, hqi]
  rcases la.getD i none with _ | x <;> rcases ra.getD i none with _ | y
  · simp [divF, arithF, pick3, eqF]
  · simp [divF, arithF, pick3, eqF]
  · simp [divF, arithF, pick3, eqF]
  · by_cases hy : y = 0
    · subst hy
      simp [divF, arithF, pick3, eqF]
    · have h1 : pick3 (eqF (some y) (some 0)) none (some y) = some y := by
        simp [pick3, eqF, hy]
      rw [h1]
      have h2 : divF (some x) (some y) = some (Int.tdiv x y) := by
        simp [divF, hy]
      rw [h2]
      refine ⟨by simp [hy], by simp [arithF], ?_⟩
      rintro x₁ y₁ z₁ hx₁ hy₁ hz₁
      injection hx₁ with hx₁
      injection hy₁ with hy₁
      injection hz₁ with hz₁
      subst hx₁; subst hy₁; subst hz₁
      rfl

theorem quotient_remainder_null_positions_witness :
    (([none, none, some 1] : Col).getD 0 none = none) ↔
      ((([some 0, some 2, some 2] : Col).getD 0 none = none) ∨
       (([some 0, some 2, some 2] : Col).getD 0 none = some 0) ∨
       (([some 5, none, some 3] : Col).getD 0 none = none)) :=
  (quotient_remainder_null_positions
    [("a", [some 5, none, some 3]), ("b", [some 0, some 2, some 2])]
    (expr_column "a") (expr_column "b")
    [some 5, none, some 3] [some 0, some 2, some 2]
    [none, none, some 1] [none, none, some 1]
    (by decide) (by decide) (by decide) (by decide) (by decide)
    0 (by decide)).1

theorem coalesce_pointwise_witness :
    evalE [("a", [some 1, none]), ("b", [some 5, some 6])]
        (expr_coalesce (expr_column "a") (expr_column "b"))
      = some (List.zipWith (fun x y => if x.isSome then x else y)
          [some 1, none] [some 5, some 6]) :=
  coalesce_pointwise [("a", [some 1, none]), ("b", [some 5, some 6])]
    (expr_column "a") (expr_column "b") [some 1, none] [some 5, some 6]
    (by decide) (by decide) (by decide)

/-- C5: evaluating `sort(e, descending)` produces a permutation of the
operand's values that is totally ordered per the requested direction with all
null elements placed last, for both values of the descending flag. -/
theorem sort_perm_sorted_nulls_last (env : Env) (e : Expr) (d : Bool)
    (xs out : Col) (hx : evalE env e = some xs)
    (hs : evalE env (expr_sort e d) = some out) :
    List.Perm xs out ∧ List.Pairwise (nullsLastLe d) out := by
  have hout : out = (argsortIdx d true xs).map (fun i => xs.getD i none) := by
    have hstep : evalE env (expr_sort e d)
        = some ((argsortIdx d true xs).map (fun i => xs.getD i none)) := by
      show (evalE env e).map _ = _
      rw [hx]
      rfl
    rw [hs] at hstep
    exact Option.some_injective _ hstep
  subst hout
  constructor
  · have hp := (argsortIdx_perm_range d true xs).map (fun i => xs.getD i none)
    rw [map_getD_range xs] at hp
    exact hp.symm
  · have himp : ∀ i j, idxRel d true xs i j →
        nullsLastLe d (xs.getD i none) (xs.getD j none) := by
      intro i j hij
      rcases hA : xs.getD i none with _ | x <;> rcases hB : xs.getD j none with _ | y
      · simp [nullsLastLe]
      · simp [idxRel, keyLe, sortKey_none_eq hA, sortKey_some_eq hB] at hij
      · simp [nullsLastLe]
      · cases d <;>
          simp [idxRel, keyLe, sortKey_some_eq hA, sortKey_some_eq hB] at hij <;>
          simp [nullsLastLe] <;> omega
    exact List.pairwise_map.mpr ((argsortIdx_sorted d true xs).imp
      (fun hij => himp _ _ hij))

theorem sort_perm_sorted_nulls_last_witness :
    List.Perm ([some 2, none, some 1] : Col) [some 1, some 2, none] ∧
    List.Pairwise (nullsLastLe false) ([some 1, some 2, none] : Col) :=
  sort_perm_sorted_nulls_last [("x", [some 2, none, some 1])] (expr_column "x")
    false [some 2, none, some 1] [some 1, some 2, none] (by decide) (by decide)

/-- C6 counterexample: on the column `[null, 1]`, `argsort` (which hard-codes
`nulls_last: false`) places the null's index first, while `sort` places nulls
last, so applying the argsort permutation does not reproduce the sort output. -/
theorem argsort_sort_null_placement_mismatch :
    evalE [("x", [none, some 1])] (expr_column "x") = some [none, some 1] ∧
    (evalE [("x", [none, some 1])] (expr_argsort (expr_column "x") false)).map
        (applyPerm [none, some 1]) = some [none, some 1] ∧
    evalE [("x", [none, some 1])] (expr_sort (expr_column "x") false)
      = some [some 1, none] ∧
    some ([none, some 1] : Col) ≠ some ([some 1, none] : Col) := by
  decide

/-- C6 (amended): whenever the operand evaluates with no null element,
applying the index permutation produced by `argsort(e, desc)` to the operand's
values reproduces exactly the output of `sort(e, desc)`. -/
theorem argsort_applied_reproduces_sort_no_nulls (env : Env) (e : Expr)
    (d : Bool) (xs : Col) (hx : evalE env e = some xs)
    (hnn : ∀ o ∈ xs, o ≠ none) :
    (evalE env (expr_argsort e d)).map (applyPerm xs)
      = evalE env (expr_sort e d) := by
  have hidx : argsortIdx d false xs = argsortIdx d true xs := by
    apply insertionSort_congr
    intro i hi j hj
    have hi₂ : i < xs.length := List.mem_range.mp hi
    have hj₂ : j < xs.length := List.mem_range.mp hj
    have hmi : xs.getD i none ∈ xs := by
      rw [List.getD_eq_getElem xs none hi₂]
      exact List.getElem_mem hi₂
    have hmj : xs.getD j none ∈ xs := by
      rw [List.getD_eq_getElem xs none hj₂]
      exact List.getElem_mem hj₂
    obtain ⟨v, hv⟩ : ∃ v, xs.getD i none = some v := by
      cases hcase : xs.getD i none with
      | none => exact absurd hcase (hnn _ hmi)
      | some v => exact ⟨v, rfl⟩
    obtain ⟨w, hw⟩ : ∃ w, xs.getD j none = some w := by
      cases hcase : xs.getD j none with
      | none => exact absurd hcase (hnn _ hmj)
      | some w => exact ⟨w, rfl⟩
    show idxRel d false xs i j ↔ idxRel d true xs i j
    simp [idxRel, keyLe, sortKey_some_eq hv, sortKey_some_eq hw]
  have hargsort : evalE env (expr_argsort e d)
      = some ((argsortIdx d false xs).map (fun i => some (Int.ofNat i))) := by
    show (evalE env e).map _ = _
    rw [hx]
    rfl
  have hsort : evalE env (expr_sort e d)
      = some ((argsortIdx d true xs).map (fun i => xs.getD i none)) := by
    show (evalE env e).map _ = _
    rw [hx]
    rfl
  rw [hargsort, hsort]
  show some (applyPerm xs ((argsortIdx d false xs).map (fun i => some (Int.ofNat i)))) = _
  rw [hidx]
  congr 1
  unfold applyPerm
  rw [List.map_map]
  apply List.map_congr_left
  intro i _
  simp

theorem argsort_applied_reproduces_sort_no_nulls_witness :
    (evalE [("x", [some 2, some 1])] (expr_argsort (expr_column "x") false)).map
        (applyPerm [some 2, some 1])
      = evalE [("x", [some 2, some 1])] (expr_sort (expr_column "x") false) :=
  argsort_applied_reproduces_sort_no_nulls [("x", [some 2, some 1])]
    (expr_column "x") false [some 2, some 1] (by decide) (by decide)

end Explorer
